import Mathlib

/-!
Verification development for the SEC financial data extractor
(`src/app.py`).  The definitions below are a shallow embedding of the
functions the claims refer to: the period-reconciliation loop inside
`extract_concepts`, the unit conversion, the table-miner quality gate
`is_useful_table` and the dedup logic of `extract_tables_from_html` /
`fetch_segment_data`.  Python dicts are modelled as insertion-ordered
association lists, dates as day numbers obtained from an ISO-format
parser, numbers as rationals, and fallible parsing as `Option`.
-/

/-! ## String utilities -/

/-- Source: `beginsWith hay needle`: the character list `needle` is a prefix of `hay`. -/
def beginsWith : List Char → List Char → Bool
  | _, [] => true
  | [], _ :: _ => false
  | a :: as, b :: bs => a == b && beginsWith as bs

/-- Substring containment test (models Python `in` / `re` literal fragment search). -/
def strContains (hay needle : String) : Bool :=
  hay.toList.tails.any (fun t => beginsWith t needle.toList)

/-- Source: `containsInOrder t a b`: an occurrence of `a` in `t` is followed (later) by an
occurrence of `b`.  Models a regex fragment `a.*b` (the embedding is slightly more
permissive than Python `re` in that `.` here may cross newlines). -/
def containsInOrder (t a b : String) : Bool :=
  t.toList.tails.any (fun suf =>
    beginsWith suf a.toList && (String.mk (suf.drop a.toList.length)).toList.tails.any
      (fun t2 => beginsWith t2 b.toList))

/-- Models `re.search(r"\d{2,}", s)`: the text contains two consecutive digits. -/
def hasTwoDigitRun (s : String) : Bool :=
  (s.toList.zip s.toList.tail).any (fun p => p.1.isDigit && p.2.isDigit)

/-- Lexicographic (code-point) strict comparison of character lists — the
order Python uses for `str` comparison. -/
def listLtb : List Char → List Char → Bool
  | [], [] => false
  | [], _ :: _ => true
  | _ :: _, [] => false
  | a :: as, b :: bs =>
      if a.toNat < b.toNat then true
      else if b.toNat < a.toNat then false
      else listLtb as bs

/-- Python `a < b` on strings. -/
def strLtb (a b : String) : Bool :=
  listLtb a.toList b.toList

/-- Python `a <= b` on strings. -/
def strLeb (a b : String) : Bool :=
  ! strLtb b a

/-- Python `s.lower()`. -/
def lowerStr (s : String) : String :=
  String.mk (s.toList.map Char.toLower)

/-- Python `s.strip()`: remove leading and trailing whitespace. -/
def stripStr (s : String) : String :=
  String.mk (((s.toList.dropWhile Char.isWhitespace).reverse.dropWhile
    Char.isWhitespace).reverse)

/-! ## ISO dates as day numbers

`pd.Timestamp` subtraction in the span filter is modelled by parsing
`YYYY-MM-DD` strings to civil day numbers; a string that does not parse models
the `except` branch of the source (`pd.Timestamp` raising). -/

/-- Decimal digit value of a character, if it is a digit. -/
def digitVal (c : Char) : Option ℤ :=
  if c.isDigit then some ((c.toNat : ℤ) - 48) else none

/-- Day number of a civil date (days since 1970-01-01, standard civil-calendar
conversion used to model `pandas` timestamp arithmetic). -/
def daysFromCivil (y m d : ℤ) : ℤ :=
  let y2 := if m ≤ 2 then y - 1 else y
  let era := (if 0 ≤ y2 then y2 else y2 - 399) / 400
  let yoe := y2 - era * 400
  let mp := (m + 9) % 12
  let doy := (153 * mp + 2) / 5 + d - 1
  let doe := yoe * 365 + yoe / 4 - yoe / 100 + doy
  era * 146097 + doe - 719468

/-- Parse an ISO `YYYY-MM-DD` date to a day number; `none` models a parse failure
(the source's `pd.Timestamp(...)` raising for malformed dates). -/
def parseDate (s : String) : Option ℤ :=
  match s.toList with
  | [y1, y2, y3, y4, '-', m1, m2, '-', d1, d2] => do
      let a ← digitVal y1
      let b ← digitVal y2
      let c ← digitVal y3
      let d ← digitVal y4
      let e ← digitVal m1
      let f ← digitVal m2
      let g ← digitVal d1
      let h ← digitVal d2
      let y := a * 1000 + b * 100 + c * 10 + d
      let m := e * 10 + f
      let dd := g * 10 + h
      if 1 ≤ m ∧ m ≤ 12 ∧ 1 ≤ dd ∧ dd ≤ 31 then some (daysFromCivil y m dd) else none
  | _ => none

/-! ## Raw observations and the period reconciler (src/app.py, `extract_concepts`) -/

/-- One raw XBRL fact entry, the fields read by `extract_concepts`:
`e.get("start","")`, `e["end"]`, `e.get("filed","")`, `e.get("form")`,
`e.get("val")`.  `endDate` embeds the source key `end` (a Lean keyword). -/
structure RawObs where
  start : String
  endDate : String
  filed : String
  form : String
  val : Option ℚ
deriving DecidableEq, Repr

/-- Reconciled entry per period: `{"val": val, "filed": filed}`. -/
structure PMEntry where
  val : Option ℚ
  filed : String
deriving DecidableEq, Repr

/-- Source: `period_map` — a Python dict modelled as an insertion-ordered association list. -/
abbrev PM := List (String × PMEntry)

/-- Dict lookup (first matching key; keys are unique by construction). -/
def lookupPM : PM → String → Option PMEntry
  | [], _ => none
  | (k, e) :: rest, k2 => if k2 = k then some e else lookupPM rest k2

/-- Dict value overwrite at an existing key (position preserved). -/
def setPM : PM → String → PMEntry → PM
  | [], _, _ => []
  | (k, e) :: rest, k2, e2 =>
      if k = k2 then (k, e2) :: setPM rest k2 e2 else (k, e) :: setPM rest k2 e2

/-- Source: `period_map[period_key] = {"val": val, "filed": filed}` guarded by
`if period_key not in period_map or filed > period_map[period_key]["filed"]`
(src/app.py:523-524): insert when absent, overwrite only when the new
`filed` is strictly later. -/
def insertPM (m : PM) (k : String) (e : PMEntry) : PM :=
  match lookupPM m k with
  | none => m ++ [(k, e)]
  | some c => if strLtb c.filed e.filed then setPM m k e else m

/-- Balance-sheet concepts: `bs_concepts = {c for c, s in CONCEPT_STATEMENT.items()
if s == "BS"}` (src/app.py:468); the `"BS"`-classified entries of
`CONCEPT_STATEMENT` (src/app.py:247-291). -/
def BS_CONCEPTS : List String :=
  ["CashAndCashEquivalentsAtCarryingValue", "Cash",
   "CashCashEquivalentsAndShortTermInvestments",
   "RestrictedCashAndCashEquivalentsCurrent",
   "AvailableForSaleSecuritiesDebtSecuritiesCurrent",
   "MarketableSecuritiesCurrent", "ShortTermInvestments",
   "AccountsReceivableNetCurrent", "ReceivablesNetCurrent",
   "AccountsReceivableGrossCurrent",
   "InventoryNet", "InventoryGross",
   "PrepaidExpenseAndOtherAssetsCurrent", "PrepaidExpenseCurrent",
   "OtherAssetsCurrent",
   "AssetsCurrent",
   "PropertyPlantAndEquipmentNet", "PropertyPlantAndEquipmentGross",
   "AccumulatedDepreciationDepletionAndAmortizationPropertyPlantAndEquipment",
   "Goodwill",
   "IntangibleAssetsNetExcludingGoodwill", "FiniteLivedIntangibleAssetsNet",
   "AvailableForSaleSecuritiesDebtSecuritiesNoncurrent",
   "MarketableSecuritiesNoncurrent", "LongTermInvestments",
   "OperatingLeaseRightOfUseAsset",
   "DeferredIncomeTaxAssetsNet", "DeferredTaxAssetsLiabilitiesNet",
   "OtherAssetsNoncurrent",
   "Assets",
   "AccountsPayableCurrent",
   "AccruedLiabilitiesCurrent", "EmployeeRelatedLiabilitiesCurrent",
   "AccruedEmployeeBenefitsCurrent",
   "DeferredRevenueCurrent", "ContractWithCustomerLiabilityCurrent",
   "ShortTermBorrowings", "DebtCurrent", "LongTermDebtCurrent",
   "ConvertibleNotesPayableCurrent",
   "OtherLiabilitiesCurrent",
   "LiabilitiesCurrent",
   "LongTermDebt", "LongTermDebtNoncurrent",
   "ConvertibleLongTermNotesPayable", "SeniorLongTermNotes",
   "OperatingLeaseLiabilityNoncurrent",
   "DeferredRevenueNoncurrent", "ContractWithCustomerLiabilityNoncurrent",
   "DeferredIncomeTaxLiabilitiesNet",
   "OtherLiabilitiesNoncurrent",
   "Liabilities",
   "CommonStockValue",
   "AdditionalPaidInCapital", "AdditionalPaidInCapitalCommonStock",
   "RetainedEarningsAccumulatedDeficit",
   "TreasuryStockValue", "TreasuryStockCommonValue",
   "AccumulatedOtherComprehensiveIncomeLossNetOfTax",
   "StockholdersEquity",
   "StockholdersEquityIncludingPortionAttributableToNoncontrollingInterest",
   "LiabilitiesAndStockholdersEquity",
   "CommonStockSharesOutstanding"]

/-- Source: `is_bs = concept in bs_concepts` (src/app.py:512). -/
def isBsConcept (concept : String) : Bool :=
  BS_CONCEPTS.contains concept

/-- Source: `span_min, span_max = (300, 400) if is_annual else (60, 110)` (src/app.py:466). -/
def spanBounds (isAnnual : Bool) : ℤ × ℤ :=
  if isAnnual then (300, 400) else (60, 110)

/-- Source: `(pd.Timestamp(end) - pd.Timestamp(start)).days`; `none` models the
`except` branch (either date failing to parse). -/
def spanDays (e : RawObs) : Option ℤ :=
  match parseDate e.endDate, parseDate e.start with
  | some de, some ds => some (de - ds)
  | _, _ => none

/-- The span filter of src/app.py:510-519: skipped for BS concepts and for
observations without a start date; a parse failure (`except: pass`) retains
the observation; otherwise the record is dropped unless
`span_min <= span <= span_max`. `true` means the record is dropped. -/
def spanRejected (isAnnual isBs : Bool) (e : RawObs) : Bool :=
  if isBs then false
  else if e.start = "" then false
  else
    match spanDays e with
    | some d =>
        if (spanBounds isAnnual).1 ≤ d ∧ d ≤ (spanBounds isAnnual).2 then false else true
    | none => false

/-- Source: `period_key = end[:4] if is_annual else end` (src/app.py:521). -/
def periodKey (isAnnual : Bool) (endDate : String) : String :=
  if isAnnual then endDate.take 4 else endDate

/-- One iteration of the `for e in filtered` loop body (src/app.py:504-524). -/
def pmStep (isAnnual isBs : Bool) (m : PM) (e : RawObs) : PM :=
  if spanRejected isAnnual isBs e then m
  else insertPM m (periodKey isAnnual e.endDate) ⟨e.val, e.filed⟩

/-- Source: `valid_forms = ("10-K", "20-F") if is_annual else ("10-Q", "6-K")` (src/app.py:464). -/
def validForms (isAnnual : Bool) : List String :=
  if isAnnual then ["10-K", "20-F"] else ["10-Q", "6-K"]

/-- The list comprehension filter of src/app.py:494-499: form in valid forms,
period end not before the cutoff, value present. -/
def passesBaseFilter (isAnnual : Bool) (cutoff : String) (e : RawObs) : Bool :=
  (validForms isAnnual).contains e.form && strLeb cutoff e.endDate && e.val.isSome

/-- The period reconciliation for one concept (src/app.py:494-524): filter the
raw entries, then build `period_map`. -/
def reconcile (concept : String) (isAnnual : Bool) (cutoff : String)
    (raw : List RawObs) : PM :=
  (raw.filter (passesBaseFilter isAnnual cutoff)).foldl
    (pmStep isAnnual (isBsConcept concept)) []

/-- The observations that survive both the base filter and the span filter
("surviving observations" in the spec's sense). -/
def survivors (concept : String) (isAnnual : Bool) (cutoff : String)
    (raw : List RawObs) : List RawObs :=
  (raw.filter (passesBaseFilter isAnnual cutoff)).filter
    (fun e => ¬ spanRejected isAnnual (isBsConcept concept) e)

/-! ## Unit conversion (src/app.py:440-450, 529-538) -/

/-- Source: `PER_SHARE_CONCEPTS` (src/app.py:440-443). -/
def PER_SHARE_CONCEPTS : List String :=
  ["EarningsPerShareBasic", "EarningsPerShareDiluted", "EarningsPerShareBasicAndDiluted"]

/-- Source: `SHARE_COUNT_CONCEPTS` (src/app.py:446-450). -/
def SHARE_COUNT_CONCEPTS : List String :=
  ["WeightedAverageNumberOfSharesOutstandingBasic",
   "WeightedAverageNumberOfDilutedSharesOutstanding",
   "CommonStockSharesOutstanding"]

/-- Round-half-to-even on rationals, modelling Python's `round` on the exact
decimal values at stake (Python floats round half to even). -/
def halfEvenRound (q : ℚ) : ℤ :=
  let f := ⌊q⌋
  let r := q - f
  if r < 1 / 2 then f
  else if 1 / 2 < r then f + 1
  else if f % 2 = 0 then f else f + 1

/-- Source: `round(v, d)`: round to `d` decimal places. -/
def roundTo (d : ℕ) (q : ℚ) : ℚ :=
  (halfEvenRound (q * 10 ^ d) : ℚ) / 10 ^ d

/-- The unit conversion of src/app.py:529-538: per-share concepts or
`USD/shares` units round to 4 decimals unscaled; share counts and everything
else (USD) are divided by 1,000,000 and rounded to 3 decimals. -/
def convertVal (concept : String) (unitType : String) (v : ℚ) : ℚ :=
  if PER_SHARE_CONCEPTS.contains concept || unitType = "USD/shares" then roundTo 4 v
  else if SHARE_COUNT_CONCEPTS.contains concept || unitType = "shares" then
    roundTo 3 (v / 1000000)
  else roundTo 3 (v / 1000000)

/-! ## Disclosure table miner (src/app.py:773-852) -/

/-- A table cell as seen through pandas: either NaN (an empty cell after
`read_html`) or a string value (numeric cells are modelled by their string
rendering). -/
inductive Cell
  | nan
  | s (v : String)
deriving DecidableEq, Repr

/-- Source: `str(v)` on a cell (`str(float("nan")) == "nan"`). -/
def cellStr : Cell → String
  | .nan => "nan"
  | .s v => v

/-- Python truthiness of a cell: NaN is truthy, the empty string is falsy. -/
def cellTruthy : Cell → Bool
  | .nan => true
  | .s v => v ≠ ""

/-- A mined table: a rectangular matrix of cells (`pandas` DataFrame). -/
structure Df where
  cells : List (List Cell)
deriving DecidableEq, Repr

/-- Source: `df.shape[0]`. -/
def Df.nrows (df : Df) : ℕ := df.cells.length

/-- Source: `df.shape[1]` (row length; frames coming from `read_html` are rectangular). -/
def Df.ncols (df : Df) : ℕ := (df.cells.headD []).length

/-- Source: `df.size = nrows * ncols`. -/
def Df.size (df : Df) : ℕ := df.nrows * df.ncols

/-- The plain alternation fragments of `JUNK_PATTERN` (src/app.py:773-782). -/
def JUNK_FRAGMENTS : List String :=
  ["table of contents", "exhibit index", "incorporated herein by reference",
   "certification of chief", "pursuant to rule 13a", "pursuant to section 906",
   "instance document", "taxonomy extension", "inline xbrl",
   "deloitte", "kpmg", "pricewaterhousecoopers", "/s/ ",
   "trading arrangement", "rule 10b5", "shares to be sold", "expiration date",
   "accounting standard", "fasb issued", "asc 842", "adoption method",
   "bylaws", "certificate of incorporation"]

/-- The `a.*b` alternation fragments of `JUNK_PATTERN`
(`ernst.*young`, `indenture.*trustee`). -/
def JUNK_SEQ_FRAGMENTS : List (String × String) :=
  [("ernst", "young"), ("indenture", "trustee")]

/-- Source: `JUNK_PATTERN.search(text)` (case-insensitive alternation of fragments). -/
def junkMatch (text : String) : Bool :=
  let t := lowerStr text
  JUNK_FRAGMENTS.any (fun f => strContains t f) ||
    JUNK_SEQ_FRAGMENTS.any (fun p => containsInOrder t p.1 p.2)

/-- Source: `sample = " ".join(str(v) for v in df.iloc[:4].values.flatten() if v)`
(src/app.py:787). -/
def sampleText (df : Df) : String :=
  String.intercalate " " (((df.cells.take 4).flatten.filter cellTruthy).map cellStr)

/-- Source: `all_text = " ".join(str(v) for v in df.values.flatten() if v)` (src/app.py:790). -/
def allText (df : Df) : String :=
  String.intercalate " " ((df.cells.flatten.filter cellTruthy).map cellStr)

/-- Source: `non_empty = sum(1 for v in df.values.flatten() if str(v).strip() not in
("", "nan", "None"))` (src/app.py:793). -/
def nonEmptyCount (df : Df) : ℕ :=
  (df.cells.flatten.filter
    (fun v => decide (stripStr (cellStr v) ∉ (["", "nan", "None"] : List String)))).length

/-- Source: `is_useful_table` (src/app.py:784-794).  The final ratio test
`non_empty / max(df.size, 1) >= 0.15` is the integer comparison
`20 * non_empty >= 3 * max(size, 1)`. -/
def is_useful_table (df : Df) : Bool :=
  if df.nrows < 3 || df.ncols < 2 then false
  else if junkMatch (sampleText df) then false
  else if ¬ hasTwoDigitRun (allText df) then false
  else decide (20 * nonEmptyCount df ≥ 3 * max df.size 1)

/-- A filing reference as used by the miner (`form`/`date`/`accession`/
`primary_doc` dict from `get_filings_index`; only the fields the miner reads). -/
structure Filing where
  date : String
  accession : String
  primary_doc : String

/-- Python `repr` of a cell inside `str(df.values.tolist())`: NaN prints bare,
strings print quoted. -/
def cellRepr : Cell → String
  | .nan => "nan"
  | .s v => "'" ++ v ++ "'"

/-- Source: `str(df.values.tolist())`. -/
def dfRepr (df : Df) : String :=
  "[" ++ String.intercalate ", "
    (df.cells.map (fun r => "[" ++ String.intercalate ", " (r.map cellRepr) ++ "]")) ++ "]"

/-- The content fingerprint `str(df.values.tolist())[:300]`
(src/app.py:821, 847). -/
def fingerprint (df : Df) : String :=
  (dfRepr df).take 300

/-- The per-document dedup plus quality gate of `extract_tables_from_html`
(src/app.py:806-828): the candidate tables located by the keyword-proximity
walk (BeautifulSoup traversal, abstracted here as the input candidate list in
discovery order) are kept when their fingerprint is new and the quality gate
passes; the fingerprint is recorded only for kept tables. -/
def extract_tables_from_html (cands : List Df) : List Df :=
  (cands.foldl
    (fun (acc : List Df × List String) df =>
      if ¬ acc.2.contains (fingerprint df) && is_useful_table df then
        (acc.1 ++ [df], acc.2 ++ [fingerprint df])
      else acc)
    ([], [])).1

/-- Source: `df.dropna(how="all").fillna("")` (src/app.py:850): drop rows whose cells
are all NaN, then replace remaining NaN by the empty string. -/
def cleanDf (df : Df) : Df :=
  ⟨(df.cells.filter (fun r => ¬ r.all (fun c => c = Cell.nan))).map
    (fun r => r.map (fun c => match c with | .nan => .s "" | .s v => .s v))⟩

/-- The per-table body of the `for df in extract_tables_from_html(...)` loop
of `fetch_segment_data` (src/app.py:846-850): skip a table whose fingerprint
was already seen in the run, otherwise record the fingerprint and append the
(filing date, cleaned table) pair. -/
def minerTableStep (date : String) (acc : List (String × Df) × List String)
    (df : Df) : List (String × Df) × List String :=
  if acc.2.contains (fingerprint df) then acc
  else (acc.1 ++ [(date, cleanDf df)], acc.2 ++ [fingerprint df])

/-- The per-filing body of the `for filing in filings[:max_filings]` loop of
`fetch_segment_data` (src/app.py:843-851): a failed fetch (`None`) or empty
document text is skipped (`if not html: continue`). -/
def minerDocStep (fetchHtml : Filing → Option String) (locate : String → List Df)
    (acc : List (String × Df) × List String) (filing : Filing) :
    List (String × Df) × List String :=
  match fetchHtml filing with
  | none => acc
  | some html =>
    if html = "" then acc
    else (extract_tables_from_html (locate html)).foldl (minerTableStep filing.date) acc

/-- Source: `fetch_segment_data` (src/app.py:830-852), with the external document
fetch (`fetch_filing_html`) and the keyword-proximity table location inside a
document abstracted as the functions `fetchHtml` and `locate`.  Across
documents, a running `seen_tables` set discards any table whose fingerprint was
already seen, and kept tables are paired with the filing date after cleaning.
(The fixed pacing `time.sleep(0.3)` has no observable effect on the result and
is not modelled.) -/
def fetch_segment_data (fetchHtml : Filing → Option String)
    (locate : String → List Df) (filings : List Filing) (maxFilings : ℕ) :
    List (String × Df) :=
  ((filings.take maxFilings).foldl (minerDocStep fetchHtml locate) ([], [])).1

/-- The candidate stream of a run over `filings`: for each scanned document
(in order), the tables that `extract_tables_from_html` yields, paired with the
filing date. -/
def minerStream (fetchHtml : Filing → Option String)
    (locate : String → List Df) (filings : List Filing) : List (String × Df) :=
  filings.flatMap
    (fun filing =>
      match fetchHtml filing with
      | none => []
      | some html =>
        if html = "" then []
        else (extract_tables_from_html (locate html)).map (fun df => (filing.date, df)))

/-- The run-wide candidate stream restricted to the `max_filings` bound. -/
def candidateStream (fetchHtml : Filing → Option String)
    (locate : String → List Df) (filings : List Filing) (maxFilings : ℕ) :
    List (String × Df) :=
  minerStream fetchHtml locate (filings.take maxFilings)

/-- Reference dedup: keep only the first occurrence of each table-content
fingerprint, given an initial set of already-seen fingerprints. -/
def dedupByFp (seen : List String) : List (String × Df) → List (String × Df)
  | [] => []
  | p :: rest =>
      if seen.contains (fingerprint p.2) then dedupByFp seen rest
      else p :: dedupByFp (seen ++ [fingerprint p.2]) rest

/-! ## Spec-modelled components

The repository text the spec was written from contains several revisions of
the script; the single file under `src/` carries neither an EBITDA derivation
nor a keyword-scoring classifier.  The two definitions below are modelled from
the spec's words, as their code is not in `src/`. -/

/-- Modelled from the spec: the Statement Assembler's EBITDA derived metric
(absent from `src/app.py`).  Per the spec, for each period
`EBITDA = Operating Income + Depreciation & Amortization + Amortization of
Intangibles`, with a missing D&A / amortization term treated as zero once
Operating Income is present, and EBITDA entirely absent when Operating Income
is absent for that period. -/
def ebitdaSeries (oi da ai : String → Option ℚ) (p : String) : Option ℚ :=
  match oi p with
  | none => none
  | some v => some (v + ((da p).getD 0) + ((ai p).getD 0))

/-- A statement bucket of the keyword-scoring strategy; `Other` is the
fourth bucket holding retained Unclassified items. -/
inductive Bucket
  | IS
  | BS
  | CF
  | Other
deriving DecidableEq, Repr

/-- Number of keyword fragments of a category that match the (lower-cased)
label text. -/
def keywordScore (frags : List String) (label : String) : ℕ :=
  (frags.filter (fun f => strContains label f)).length

/-- Modelled from the spec: the keyword-scoring classification strategy
(absent from `src/app.py`, which only carries the allow-list strategy).  The
label is lower-cased; each category is scored against its keyword-fragment
set; the best score wins, with ties broken by the fixed priority
Cash Flow > Balance Sheet > Income Statement; zero matches leaves the item
retained under the `Other` bucket. -/
def keywordClassify (kwCF kwBS kwIS : List String) (label : String) : Bucket :=
  let l := lowerStr label
  let scored : List (Bucket × ℕ) :=
    [(Bucket.CF, keywordScore kwCF l), (Bucket.BS, keywordScore kwBS l),
     (Bucket.IS, keywordScore kwIS l)]
  (scored.foldl (fun best c => if best.2 < c.2 then c else best) (Bucket.Other, 0)).1

/-! ## Concrete data used by witnesses and counterexamples -/

/-- A 2022 annual net-income-style observation (filed 2023-02-01, value 100). -/
def obsA : RawObs :=
  ⟨"2022-01-01", "2022-12-31", "2023-02-01", "10-K", some 100⟩

/-- An amendment of `obsA`: same period, filed later (2023-05-01), value 110. -/
def obsB : RawObs :=
  ⟨"2022-01-01", "2022-12-31", "2023-05-01", "10-K", some 110⟩

/-- Same period and the same `filed` date as `obsA`, but value 120. -/
def obsTie : RawObs :=
  ⟨"2022-01-01", "2022-12-31", "2023-02-01", "10-K", some 120⟩

/-- A balance-sheet observation for `Assets` whose duration is only 30 days. -/
def obsAssetsShort : RawObs :=
  ⟨"2022-12-01", "2022-12-31", "2023-02-01", "10-K", some 5⟩

/-- An observation whose start date does not parse. -/
def obsBadStart : RawObs :=
  ⟨"not-a-date", "2022-12-31", "2023-02-01", "10-K", some 7⟩

/-- A 5×2 table whose junk text ("Table of Contents") sits in the fifth row,
below the 4-row sample window of the quality gate. -/
def dfTocLate : Df :=
  ⟨[[.s "Segment", .s "Revenue"],
    [.s "East", .s "125"],
    [.s "West", .s "240"],
    [.s "North", .s "310"],
    [.s "Table of Contents", .s "55"]]⟩

/-- A 2×2 table with all cells empty. -/
def dfEmpty22 : Df :=
  ⟨[[.s "", .s ""], [.s "", .s ""]]⟩

/-- A 3×2 table with numeric content whose first row contains
"Table of Contents". -/
def dfTocEarly : Df :=
  ⟨[[.s "Table of Contents", .s "12"],
    [.s "Item 1", .s "34"],
    [.s "Item 2", .s "56"]]⟩

/-! ## Proof-support definitions -/

/-- The net effect of the reconciler's tie-break on one period slot: a new
entry fills an empty slot, and overwrites an occupied one exactly when its
`filed` date is strictly later. -/
def combine : Option PMEntry → PMEntry → PMEntry
  | none, e => e
  | some c, e => if strLtb c.filed e.filed then e else c

/-- The keys of a period map, in insertion order. -/
def keysPM (m : PM) : List String :=
  m.map Prod.fst

/-- The insertion part of the reconciliation loop body (the loop body once the
span filter has been applied). -/
def insStep (isAnnual : Bool) (m : PM) (e : RawObs) : PM :=
  insertPM m (periodKey isAnnual e.endDate) ⟨e.val, e.filed⟩

/-- Example Operating Income series: present only for period "2022". -/
def oiEx : String → Option ℚ :=
  fun p => if p = "2022" then some 10 else none

/-- Example Depreciation & Amortization series: absent everywhere. -/
def daEx : String → Option ℚ :=
  fun _ => none

/-- Example Amortization of Intangibles series: present only for "2022". -/
def aiEx : String → Option ℚ :=
  fun p => if p = "2022" then some 2 else none

/-! ## Association-list lemmas for the period map -/

theorem lookupPM_setPM (m : PM) (k : String) (e : PMEntry) (k2 : String) :
    lookupPM (setPM m k e) k2 =
      if k2 = k then (lookupPM m k).map (fun _ => e) else lookupPM m k2 := by
  induction m with
  | nil => simp [setPM, lookupPM]
  | cons p rest ih =>
    obtain ⟨k1, e1⟩ := p
    by_cases h1 : k1 = k
    · subst h1
      by_cases h2 : k2 = k1
      · subst h2; simp [setPM, lookupPM]
      · simp [setPM, lookupPM, h2, ih]
    · have h1s : ¬ k = k1 := fun hh => h1 hh.symm
      by_cases h2 : k2 = k1
      · subst h2; simp [setPM, lookupPM, h1, h1s]
      · simp [setPM, lookupPM, h1, h1s, h2, ih]

theorem lookupPM_append_single (m : PM) (k : String) (e : PMEntry) (k2 : String) :
    lookupPM (m ++ [(k, e)]) k2 =
      match lookupPM m k2 with
      | some c => some c
      | none => if k2 = k then some e else none := by
  induction m with
  | nil => simp [lookupPM]
  | cons p rest ih =>
    obtain ⟨k1, e1⟩ := p
    by_cases h : k2 = k1 <;> simp [lookupPM, h, ih]

theorem lookupPM_insertPM (m : PM) (k : String) (e : PMEntry) (k2 : String) :
    lookupPM (insertPM m k e) k2 =
      if k2 = k then some (combine (lookupPM m k) e) else lookupPM m k2 := by
  cases hm : lookupPM m k with
  | none =>
    simp only [insertPM, hm]
    rw [lookupPM_append_single]
    by_cases h : k2 = k
    · subst h; simp [hm, combine]
    · simp only [h, if_false]
      cases lookupPM m k2 <;> simp
  | some c =>
    simp only [insertPM, hm]
    by_cases hf : strLtb c.filed e.filed = true
    · rw [if_pos hf, lookupPM_setPM]
      by_cases h : k2 = k
      · subst h; simp [hm, combine, hf]
      · simp [h]
    · rw [if_neg hf]
      by_cases h : k2 = k
      · subst h; simp [hm, combine, hf]
      · simp [h]

theorem keysPM_setPM (m : PM) (k : String) (e : PMEntry) :
    keysPM (setPM m k e) = keysPM m := by
  induction m with
  | nil => rfl
  | cons p rest ih =>
    obtain ⟨k1, e1⟩ := p
    by_cases h : k1 = k <;> simp [setPM, h, keysPM] at * <;> exact ih

theorem lookupPM_eq_none_iff (m : PM) (k : String) :
    lookupPM m k = none ↔ k ∉ keysPM m := by
  induction m with
  | nil => simp [lookupPM, keysPM]
  | cons p rest ih =>
    obtain ⟨k1, e1⟩ := p
    by_cases h : k = k1 <;> simp [lookupPM, keysPM, h, ih]

theorem keysPM_insertPM_nodup (m : PM) (k : String) (e : PMEntry)
    (h : (keysPM m).Nodup) : (keysPM (insertPM m k e)).Nodup := by
  cases hm : lookupPM m k with
  | none =>
    have hk : k ∉ keysPM m := (lookupPM_eq_none_iff m k).mp hm
    simp only [insertPM, hm]
    have hkeys : keysPM (m ++ [(k, e)]) = keysPM m ++ [k] := by simp [keysPM]
    rw [hkeys]
    simp [List.nodup_append, h, hk]
  | some c =>
    simp only [insertPM, hm]
    by_cases hf : strLtb c.filed e.filed = true
    · rw [if_pos hf, keysPM_setPM]; exact h
    · rw [if_neg hf]; exact h

/-! ## Fold lemmas for the reconciliation loop -/

theorem foldl_pmStep_eq_filter (isAnnual isBs : Bool) (l : List RawObs) (m : PM) :
    l.foldl (pmStep isAnnual isBs) m =
      (l.filter (fun e => ¬ spanRejected isAnnual isBs e)).foldl (insStep isAnnual) m := by
  induction l generalizing m with
  | nil => rfl
  | cons e rest ih =>
    by_cases h : spanRejected isAnnual isBs e = true
    · simp [pmStep, insStep, h, List.filter_cons, ih]
    · simp only [Bool.not_eq_true] at h
      simp [pmStep, insStep, h, List.filter_cons, ih]

theorem reconcile_eq_survivors (concept : String) (isAnnual : Bool) (cutoff : String)
    (raw : List RawObs) :
    reconcile concept isAnnual cutoff raw =
      (survivors concept isAnnual cutoff raw).foldl (insStep isAnnual) [] := by
  unfold reconcile survivors
  exact foldl_pmStep_eq_filter isAnnual (isBsConcept concept) _ []

theorem foldl_ins_origin (isAnnual : Bool) (l : List RawObs) (m : PM) (k : String)
    (v : PMEntry)
    (h : lookupPM (l.foldl (insStep isAnnual) m) k = some v) :
    lookupPM m k = some v ∨
      ∃ e ∈ l, periodKey isAnnual e.endDate = k ∧ v = ⟨e.val, e.filed⟩ := by
  induction l generalizing m with
  | nil => exact Or.inl h
  | cons e rest ih =>
    rcases ih (insStep isAnnual m e) h with h1 | ⟨e2, he2, hpk, hv⟩
    · rw [insStep, lookupPM_insertPM] at h1
      by_cases hk : k = periodKey isAnnual e.endDate
      · rw [if_pos hk] at h1
        injection h1 with h1
        cases hm : lookupPM m (periodKey isAnnual e.endDate) with
        | none =>
          right
          refine ⟨e, List.mem_cons_self e rest, hk.symm, ?_⟩
          rw [← h1, hm]
          rfl
        | some c =>
          rw [hm] at h1
          by_cases hf : strLtb c.filed e.filed = true
          · right
            refine ⟨e, List.mem_cons_self e rest, hk.symm, ?_⟩
            rw [← h1]
            simp [combine, hf]
          · left
            rw [hk, hm]
            rw [← h1]
            simp [combine, hf]
      · rw [if_neg hk] at h1
        exact Or.inl h1
    · exact Or.inr ⟨e2, List.mem_cons_of_mem e he2, hpk, hv⟩

theorem listLtb_irrefl (l : List Char) : listLtb l l = false := by
  induction l with
  | nil => rfl
  | cons a as ih => simp [listLtb, ih]

theorem listLtb_asymm {a b : List Char} (h : listLtb a b = true) :
    listLtb b a = false := by
  induction a generalizing b with
  | nil =>
    cases b with
    | nil => exact absurd h (by simp [listLtb])
    | cons y ys => rfl
  | cons x xs ih =>
    cases b with
    | nil => exact absurd h (by simp [listLtb])
    | cons y ys =>
      simp only [listLtb] at h ⊢
      rcases Nat.lt_trichotomy x.toNat y.toNat with hxy | hxy | hxy
      · rw [if_neg (by omega), if_pos (by omega)]
      · rw [if_neg (by omega), if_neg (by omega)] at h ⊢
        exact ih h
      · rw [if_neg (by omega), if_pos (by omega)] at h
        exact Bool.noConfusion h

theorem listLtb_le_trans {a b c : List Char} (h1 : listLtb b a = false)
    (h2 : listLtb c b = false) : listLtb c a = false := by
  induction a generalizing b c with
  | nil =>
    cases c with
    | nil => rfl
    | cons z zs => rfl
  | cons x xs ih =>
    cases b with
    | nil => exact absurd h1 (by simp [listLtb])
    | cons y ys =>
      cases c with
      | nil => exact absurd h2 (by simp [listLtb])
      | cons z zs =>
        simp only [listLtb] at h1 h2 ⊢
        by_cases hyx : y.toNat < x.toNat
        · rw [if_pos hyx] at h1
          exact Bool.noConfusion h1
        · by_cases hzy : z.toNat < y.toNat
          · rw [if_pos hzy] at h2
            exact Bool.noConfusion h2
          · rw [if_neg (by omega)]
            by_cases hxz : x.toNat < z.toNat
            · rw [if_pos hxz]
            · rw [if_neg hxz]
              rw [if_neg hyx, if_neg (by omega)] at h1
              rw [if_neg hzy, if_neg (by omega)] at h2
              exact ih h1 h2

theorem strLeb_refl (a : String) : strLeb a a = true := by
  simp [strLeb, strLtb, listLtb_irrefl]

theorem strLeb_trans {a b c : String} (h1 : strLeb a b = true)
    (h2 : strLeb b c = true) : strLeb a c = true := by
  simp only [strLeb, strLtb, Bool.not_eq_true'] at h1 h2 ⊢
  exact listLtb_le_trans h1 h2

theorem strLeb_of_strLtb {a b : String} (h : strLtb a b = true) :
    strLeb a b = true := by
  simp only [strLeb, strLtb, Bool.not_eq_true'] at *
  exact listLtb_asymm h

theorem combine_filed_le_left (c e : PMEntry) :
    strLeb c.filed (combine (some c) e).filed = true := by
  by_cases hf : strLtb c.filed e.filed = true
  · simp only [combine, if_pos hf]
    exact strLeb_of_strLtb hf
  · simp only [combine, if_neg hf]
    exact strLeb_refl _

theorem combine_filed_le_right (oc : Option PMEntry) (e : PMEntry) :
    strLeb e.filed (combine oc e).filed = true := by
  cases oc with
  | none => exact strLeb_refl _
  | some c =>
    by_cases hf : strLtb c.filed e.filed = true
    · simp only [combine, if_pos hf]
      exact strLeb_refl _
    · simp only [combine, if_neg hf]
      simp only [Bool.not_eq_true] at hf
      simp only [strLeb, hf]
      rfl

theorem foldl_ins_mono (isAnnual : Bool) (l : List RawObs) (m : PM) (k : String)
    (c : PMEntry) (hm : lookupPM m k = some c) :
    ∃ v, lookupPM (l.foldl (insStep isAnnual) m) k = some v ∧
      strLeb c.filed v.filed = true := by
  induction l generalizing m c with
  | nil => exact ⟨c, hm, strLeb_refl _⟩
  | cons e rest ih =>
    have step : ∃ c2, lookupPM (insStep isAnnual m e) k = some c2 ∧
        strLeb c.filed c2.filed = true := by
      rw [insStep, lookupPM_insertPM]
      by_cases hk : k = periodKey isAnnual e.endDate
      · rw [if_pos hk, ← hk, hm]
        exact ⟨_, rfl, combine_filed_le_left c ⟨e.val, e.filed⟩⟩
      · exact ⟨c, by rw [if_neg hk]; exact hm, strLeb_refl _⟩
    obtain ⟨c2, h2, hle⟩ := step
    obtain ⟨v, hv, hle2⟩ := ih _ _ h2
    exact ⟨v, hv, strLeb_trans hle hle2⟩

theorem foldl_ins_max (isAnnual : Bool) (l : List RawObs) (m : PM) (k : String)
    (v : PMEntry) (e : RawObs) (he : e ∈ l)
    (hpk : periodKey isAnnual e.endDate = k)
    (h : lookupPM (l.foldl (insStep isAnnual) m) k = some v) :
    strLeb e.filed v.filed = true := by
  induction l generalizing m with
  | nil => cases he
  | cons e1 rest ih =>
    rcases List.mem_cons.mp he with heq | hmem
    · subst heq
      have step : ∃ c2, lookupPM (insStep isAnnual m e) k = some c2 ∧
          strLeb e.filed c2.filed = true := by
        rw [insStep, hpk, lookupPM_insertPM, if_pos rfl]
        exact ⟨_, rfl, combine_filed_le_right (lookupPM m k) ⟨e.val, e.filed⟩⟩
      obtain ⟨c2, hc2, hle⟩ := step
      obtain ⟨v2, hv2, hle2⟩ := foldl_ins_mono isAnnual rest _ k c2 hc2
      rw [List.foldl_cons] at h
      have hvv : v2 = v := Option.some.inj (hv2.symm.trans h)
      rw [← hvv]
      exact strLeb_trans hle hle2
    · rw [List.foldl_cons] at h
      exact ih _ hmem h

theorem foldl_ins_exists (isAnnual : Bool) (l : List RawObs) (m : PM) (k : String)
    (e : RawObs) (he : e ∈ l) (hpk : periodKey isAnnual e.endDate = k) :
    ∃ v, lookupPM (l.foldl (insStep isAnnual) m) k = some v := by
  induction l generalizing m with
  | nil => cases he
  | cons e1 rest ih =>
    rcases List.mem_cons.mp he with heq | hmem
    · subst heq
      have step : ∃ c2, lookupPM (insStep isAnnual m e) k = some c2 := by
        rw [insStep, hpk, lookupPM_insertPM, if_pos rfl]
        exact ⟨_, rfl⟩
      obtain ⟨c2, hc2⟩ := step
      obtain ⟨v, hv, _⟩ := foldl_ins_mono isAnnual rest _ k c2 hc2
      exact ⟨v, by rw [List.foldl_cons]; exact hv⟩
    · rw [List.foldl_cons]
      exact ih _ hmem

theorem foldl_ins_nodup (isAnnual : Bool) (l : List RawObs) (m : PM)
    (h : (keysPM m).Nodup) : (keysPM (l.foldl (insStep isAnnual) m)).Nodup := by
  induction l generalizing m with
  | nil => exact h
  | cons e rest ih =>
    rw [List.foldl_cons]
    exact ih _ (keysPM_insertPM_nodup _ _ _ h)

/-! ## Claim theorems: period reconciliation -/

/-- Claim C3: for every pair of surviving observations with the same concept
and PeriodKey but different filedDate values, the reconciler selects the value
of the observation with the later filedDate, regardless of the order in which
the observations appear in the input list.  Stated over an arbitrary raw list:
if the surviving observations at the key are exactly `a` and `b` (appearing in
any order and multiplicity) and `b` was filed strictly later, the reconciled
entry at that key is `b`'s value. -/
theorem reconcile_last_filed_wins (concept : String) (isAnnual : Bool)
    (cutoff : String) (raw : List RawObs) (a b : RawObs) (k : String)
    (ha : a ∈ survivors concept isAnnual cutoff raw)
    (hb : b ∈ survivors concept isAnnual cutoff raw)
    (hka : periodKey isAnnual a.endDate = k)
    (hkb : periodKey isAnnual b.endDate = k)
    (hf : strLtb a.filed b.filed = true)
    (honly : ∀ c ∈ survivors concept isAnnual cutoff raw,
      periodKey isAnnual c.endDate = k → c = a ∨ c = b) :
    lookupPM (reconcile concept isAnnual cutoff raw) k = some ⟨b.val, b.filed⟩ := by
  rw [reconcile_eq_survivors]
  obtain ⟨v, hv⟩ := foldl_ins_exists isAnnual _ [] k b hb hkb
  have hmax : strLeb b.filed v.filed = true := foldl_ins_max isAnnual _ [] k v b hb hkb hv
  rcases foldl_ins_origin isAnnual _ [] k v hv with h0 | ⟨e, he, hek, hveq⟩
  · simp [lookupPM] at h0
  · rcases honly e he hek with heq | heq
    · exfalso
      subst heq
      have hmax2 : strLeb b.filed e.filed = true := by
        rw [hveq] at hmax
        exact hmax
      simp only [strLeb] at hmax2
      rw [hf] at hmax2
      exact Bool.noConfusion hmax2
    · subst heq
      rw [hv, hveq]

/-- Witness for C3: the two end-to-end observations of the spec's scenario
(filed 2023-02-01 value 100, amendment filed 2023-05-01 value 110) reconcile
to the amendment's value in both input orders. -/
theorem reconcile_last_filed_wins_witness :
    lookupPM (reconcile "Revenues" true "2000-01-01" [obsA, obsB]) "2022" =
        some ⟨some 110, "2023-05-01"⟩ ∧
      lookupPM (reconcile "Revenues" true "2000-01-01" [obsB, obsA]) "2022" =
        some ⟨some 110, "2023-05-01"⟩ :=
  ⟨reconcile_last_filed_wins "Revenues" true "2000-01-01" [obsA, obsB] obsA obsB
      "2022" (by decide) (by decide) (by decide) (by decide) (by decide) (by decide),
    reconcile_last_filed_wins "Revenues" true "2000-01-01" [obsB, obsA] obsA obsB
      "2022" (by decide) (by decide) (by decide) (by decide) (by decide) (by decide)⟩

/-- Claim C4: for every input list of raw observations and every concept, the
period reconciliation produces at most one value per PeriodKey: the keys of
the reconciled period map are pairwise distinct. -/
theorem reconcile_period_key_unique (concept : String) (isAnnual : Bool)
    (cutoff : String) (raw : List RawObs) :
    (keysPM (reconcile concept isAnnual cutoff raw)).Nodup := by
  rw [reconcile_eq_survivors]
  exact foldl_ins_nodup _ _ [] (by simp [keysPM])

/-- Claim C5 counterexample: `Assets` is a balance-sheet concept, so an annual
observation with a start date and a 30-day span — far outside [300, 400] —
still survives reconciliation: observations with a start date are not all
subject to the span check. -/
theorem span_exemption_counterexample :
    reconcile "Assets" true "2000-01-01" [obsAssetsShort] =
        [("2022", ⟨some 5, "2023-02-01"⟩)] ∧
      obsAssetsShort.start ≠ "" ∧
      spanDays obsAssetsShort = some 30 ∧
      spanBounds true = (300, 400) ∧
      ¬ ((300 : ℤ) ≤ 30 ∧ (30 : ℤ) ≤ 400) :=
  ⟨by decide, by decide, by decide, by decide, by decide⟩

/-- Claim C5 (amended): every reconciled entry of a non-balance-sheet concept
comes from a raw observation that either has no start date, or has a start/end
date that fails to parse, or has a span (end − start, in days) within the
frequency's bounds ([300, 400] annual, [60, 110] quarterly).  Balance-sheet
concepts and observations with unparseable dates are exempt in addition to the
start-less observations named by the claim. -/
theorem reconcile_span_within_bounds (concept : String) (isAnnual : Bool)
    (cutoff : String) (raw : List RawObs) (k : String) (v : PMEntry)
    (hbs : isBsConcept concept = false)
    (hv : lookupPM (reconcile concept isAnnual cutoff raw) k = some v) :
    ∃ e ∈ raw, v = ⟨e.val, e.filed⟩ ∧
      (e.start = "" ∨ spanDays e = none ∨
        ∃ d, spanDays e = some d ∧
          (spanBounds isAnnual).1 ≤ d ∧ d ≤ (spanBounds isAnnual).2) := by
  rw [reconcile_eq_survivors] at hv
  rcases foldl_ins_origin isAnnual _ [] k v hv with h0 | ⟨e, he, hek, hveq⟩
  · simp [lookupPM] at h0
  · have he2 := he
    unfold survivors at he2
    rw [List.mem_filter] at he2
    obtain ⟨hbase, hspan⟩ := he2
    rw [List.mem_filter] at hbase
    refine ⟨e, hbase.1, hveq, ?_⟩
    rw [hbs] at hspan
    simp only [decide_eq_true_eq, Bool.not_eq_true] at hspan
    by_cases hs : e.start = ""
    · exact Or.inl hs
    · right
      cases hsd : spanDays e with
      | none => exact Or.inl rfl
      | some d =>
        right
        refine ⟨d, rfl, ?_⟩
        simp only [spanRejected, Bool.false_eq_true, if_false, hs, hsd] at hspan
        by_cases hb2 : (spanBounds isAnnual).1 ≤ d ∧ d ≤ (spanBounds isAnnual).2
        · exact hb2
        · rw [if_neg hb2] at hspan
          exact absurd hspan (by simp)

/-- Witness for C5 (amended): a well-formed annual income-statement
observation spanning 364 days is reconciled, and its originating observation
satisfies the span bound. -/
theorem reconcile_span_within_bounds_witness :
    ∃ e ∈ [obsA], (⟨some 100, "2023-02-01"⟩ : PMEntry) = ⟨e.val, e.filed⟩ ∧
      (e.start = "" ∨ spanDays e = none ∨
        ∃ d, spanDays e = some d ∧
          (spanBounds true).1 ≤ d ∧ d ≤ (spanBounds true).2) :=
  reconcile_span_within_bounds "Revenues" true "2000-01-01" [obsA] "2022"
    ⟨some 100, "2023-02-01"⟩ (by decide) (by decide)

/-- Claim C9: an observation whose start/end date parsing fails during span
filtering is retained (the span filter is non-restrictive for that record)
rather than being dropped: a single such observation that passes the
form/cutoff/value filter always yields a reconciled entry. -/
theorem malformed_date_retained (concept : String) (isAnnual : Bool)
    (cutoff : String) (e : RawObs)
    (hbase : passesBaseFilter isAnnual cutoff e = true)
    (hparse : parseDate e.start = none ∨ parseDate e.endDate = none) :
    reconcile concept isAnnual cutoff [e] =
      [(periodKey isAnnual e.endDate, ⟨e.val, e.filed⟩)] := by
  have hsd : spanDays e = none := by
    unfold spanDays
    rcases hparse with h | h
    · rw [h]
      cases parseDate e.endDate <;> rfl
    · rw [h]
  have hspan : spanRejected isAnnual (isBsConcept concept) e = false := by
    unfold spanRejected
    cases hbs : isBsConcept concept
    · simp only [Bool.false_eq_true, if_false]
      by_cases hs : e.start = ""
      · rw [if_pos hs]
      · rw [if_neg hs, hsd]
    · simp
  unfold reconcile
  rw [List.filter_cons]
  simp only [hbase, if_true, List.filter_nil, List.foldl_cons, List.foldl_nil]
  simp only [pmStep, hspan, Bool.false_eq_true, if_false]
  simp [insertPM, lookupPM]

/-- Witness for C9: `obsBadStart` has the unparseable start date
"not-a-date" and is retained. -/
theorem malformed_date_retained_witness :
    reconcile "Revenues" true "2000-01-01" [obsBadStart] =
      [(periodKey true obsBadStart.endDate, ⟨obsBadStart.val, obsBadStart.filed⟩)] :=
  malformed_date_retained "Revenues" true "2000-01-01" obsBadStart (by decide)
    (Or.inl (by decide))

/-- Claim C10: when two surviving observations for the same concept and
PeriodKey have identical filedDate strings, the reconciler keeps the
observation that appears earlier in the raw input list (the supersede
comparison is strict), so the reconciled value depends on the input
ordering. -/
theorem reconcile_tie_keeps_first (concept : String) (isAnnual : Bool)
    (cutoff : String) (a b : RawObs) (k : String)
    (hpa : passesBaseFilter isAnnual cutoff a = true)
    (hpb : passesBaseFilter isAnnual cutoff b = true)
    (hsa : spanRejected isAnnual (isBsConcept concept) a = false)
    (hsb : spanRejected isAnnual (isBsConcept concept) b = false)
    (hka : periodKey isAnnual a.endDate = k)
    (hkb : periodKey isAnnual b.endDate = k)
    (hfiled : a.filed = b.filed) :
    lookupPM (reconcile concept isAnnual cutoff [a, b]) k = some ⟨a.val, a.filed⟩ ∧
      lookupPM (reconcile concept isAnnual cutoff [b, a]) k = some ⟨b.val, b.filed⟩ := by
  have hltab : strLtb a.filed b.filed = false := by
    rw [hfiled]
    exact listLtb_irrefl _
  have hltba : strLtb b.filed a.filed = false := by
    rw [hfiled]
    exact listLtb_irrefl _
  constructor
  · unfold reconcile
    rw [List.filter_cons, List.filter_cons]
    simp only [hpa, hpb, if_true, List.filter_nil, List.foldl_cons, List.foldl_nil]
    simp only [pmStep, hsa, hsb, Bool.false_eq_true, if_false, hka, hkb]
    have hl1 : insertPM [] k (⟨a.val, a.filed⟩ : PMEntry) = [(k, ⟨a.val, a.filed⟩)] := by
      simp [insertPM, lookupPM]
    rw [hl1]
    have hl2 : lookupPM [(k, (⟨a.val, a.filed⟩ : PMEntry))] k = some ⟨a.val, a.filed⟩ := by
      simp [lookupPM]
    simp only [insertPM, hl2, hltab, Bool.false_eq_true, if_false]
  · unfold reconcile
    rw [List.filter_cons, List.filter_cons]
    simp only [hpa, hpb, if_true, List.filter_nil, List.foldl_cons, List.foldl_nil]
    simp only [pmStep, hsa, hsb, Bool.false_eq_true, if_false, hka, hkb]
    have hl1 : insertPM [] k (⟨b.val, b.filed⟩ : PMEntry) = [(k, ⟨b.val, b.filed⟩)] := by
      simp [insertPM, lookupPM]
    rw [hl1]
    have hl2 : lookupPM [(k, (⟨b.val, b.filed⟩ : PMEntry))] k = some ⟨b.val, b.filed⟩ := by
      simp [lookupPM]
    simp only [insertPM, hl2, hltba, Bool.false_eq_true, if_false]

/-- Witness for C10: two observations tied on filedDate but with different
values (100 versus 120) reconcile to whichever appears first, so the result
depends on the input ordering. -/
theorem reconcile_tie_keeps_first_witness :
    (lookupPM (reconcile "Revenues" true "2000-01-01" [obsA, obsTie]) "2022" =
        some ⟨some 100, "2023-02-01"⟩ ∧
      lookupPM (reconcile "Revenues" true "2000-01-01" [obsTie, obsA]) "2022" =
        some ⟨some 120, "2023-02-01"⟩) ∧
      (some (100 : ℚ) : Option ℚ) ≠ some 120 :=
  ⟨reconcile_tie_keeps_first "Revenues" true "2000-01-01" obsA obsTie "2022"
      (by decide) (by decide) (by decide) (by decide) (by decide) (by decide)
      (by decide),
    by decide⟩

/-! ## Claim theorems: unit normalization and the table miner -/

/-- Claim C6: unit normalization is exact as specified: a Currency value of
1,234,567.891 normalizes to 1.235 (divide by 1,000,000, round to 3 decimals);
a CurrencyPerShare value of 2.34567 normalizes to 2.3457 (round to 4 decimals,
no scaling); and a ShareCount value is divided by 1,000,000 and rounded to
3 decimals (1,234,567,891 shares normalize to 1234.568). -/
theorem unit_normalization_exact :
    (∀ c : String, c ∉ PER_SHARE_CONCEPTS → c ∉ SHARE_COUNT_CONCEPTS →
        convertVal c "USD" (1234567.891 : ℚ) = 1.235) ∧
      (∀ c : String, convertVal c "USD/shares" (2.34567 : ℚ) = 2.3457) ∧
      (∀ c : String, ∀ v : ℚ, c ∉ PER_SHARE_CONCEPTS →
        convertVal c "shares" v = roundTo 3 (v / 1000000)) ∧
      (∀ c : String, c ∉ PER_SHARE_CONCEPTS →
        convertVal c "shares" (1234567891 : ℚ) = 1234.568) := by
  have hne1 : ("USD" : String) ≠ "USD/shares" := by decide
  have hne2 : ("USD" : String) ≠ "shares" := by decide
  have hne3 : ("shares" : String) ≠ "USD/shares" := by decide
  refine ⟨?_, ?_, ?_, ?_⟩
  · intro c hc1 hc2
    have h1 : PER_SHARE_CONCEPTS.contains c = false := by simpa using hc1
    have h2 : SHARE_COUNT_CONCEPTS.contains c = false := by simpa using hc2
    simp only [convertVal, h1, h2, hne1, hne2]
    norm_num [roundTo, halfEvenRound]
  · intro c
    simp only [convertVal]
    norm_num [roundTo, halfEvenRound]
  · intro c v hc1
    have h1 : PER_SHARE_CONCEPTS.contains c = false := by simpa using hc1
    simp only [convertVal, h1, hne3]
    simp
  · intro c hc1
    have h1 : PER_SHARE_CONCEPTS.contains c = false := by simpa using hc1
    simp only [convertVal, h1, hne3]
    norm_num [roundTo, halfEvenRound]

/-- Witness for C6 at concrete concepts. -/
theorem unit_normalization_exact_witness :
    convertVal "Revenues" "USD" (1234567.891 : ℚ) = 1.235 ∧
      convertVal "EarningsPerShareBasic" "USD/shares" (2.34567 : ℚ) = 2.3457 ∧
      convertVal "CommonStockSharesOutstanding" "shares" (1234567891 : ℚ) =
        1234.568 :=
  ⟨unit_normalization_exact.1 "Revenues" (by decide) (by decide),
    unit_normalization_exact.2.1 "EarningsPerShareBasic",
    unit_normalization_exact.2.2.2 "CommonStockSharesOutstanding" (by decide)⟩

/-- Claim C7 counterexample: a 5×2 table with numeric content that contains
"Table of Contents" — but only in its fifth row, below the 4-row sample window
— is accepted by `is_useful_table`, so the gate does not reject every table
containing a junk fragment. -/
theorem quality_gate_junk_counterexample :
    is_useful_table dfTocLate = true ∧
      strContains (lowerStr (allText dfTocLate)) "table of contents" = true :=
  ⟨by decide, by decide⟩

/-- Claim C7 (amended): the quality gate rejects every table with fewer than
3 rows or fewer than 2 columns (in particular a 2×2 all-empty table), and
rejects every table whose first-four-row sample text matches a junk-pattern
fragment (for example "Table of Contents" appearing within the first four
rows) even when the table has numeric content; a junk fragment appearing only
below the first four rows does not by itself cause rejection. -/
theorem quality_gate_shape_and_junk :
    (∀ df : Df, df.nrows < 3 ∨ df.ncols < 2 → is_useful_table df = false) ∧
      (∀ df : Df, junkMatch (sampleText df) = true → is_useful_table df = false) := by
  constructor
  · intro df h
    unfold is_useful_table
    rcases h with h | h <;> simp [h]
  · intro df h
    unfold is_useful_table
    simp [h]

/-- Witness for C7 (amended): the 2×2 all-empty table and a junk-fragment
table with numeric content are both rejected. -/
theorem quality_gate_shape_and_junk_witness :
    is_useful_table dfEmpty22 = false ∧ is_useful_table dfTocEarly = false :=
  ⟨quality_gate_shape_and_junk.1 dfEmpty22 (Or.inl (by decide)),
    quality_gate_shape_and_junk.2 dfTocEarly (by decide)⟩

/-! ## Claim theorems: spec-modelled components -/

/-- Claim C1: for every period, if Operating Income is present then EBITDA is
computed as Operating Income + D&A + Amortization of Intangibles with any
missing D&A/amortization term treated as zero; if Operating Income is absent
for the period then EBITDA is entirely absent (never zero). -/
theorem ebitda_presence_absence (oi da ai : String → Option ℚ) (p : String) :
    (∀ v : ℚ, oi p = some v →
        ebitdaSeries oi da ai p = some (v + ((da p).getD 0) + ((ai p).getD 0))) ∧
      (oi p = none → ebitdaSeries oi da ai p = none) := by
  constructor
  · intro v h
    unfold ebitdaSeries
    rw [h]
  · intro h
    unfold ebitdaSeries
    rw [h]

/-- Witness for C1: with Operating Income 10 and Amortization of Intangibles 2
present for "2022" and D&A absent everywhere, EBITDA for "2022" is 12 and
EBITDA for "2021" (no Operating Income) is absent. -/
theorem ebitda_presence_absence_witness :
    ebitdaSeries oiEx daEx aiEx "2022" = some 12 ∧
      ebitdaSeries oiEx daEx aiEx "2021" = none := by
  constructor
  · have h := (ebitda_presence_absence oiEx daEx aiEx "2022").1 10 (by decide)
    rw [h]
    norm_num [daEx, aiEx]
  · exact (ebitda_presence_absence oiEx daEx aiEx "2021").2 (by decide)

/-- Characterization of the priority-respecting argmax at the heart of the
keyword-scoring strategy: `Other` on all-zero scores; otherwise the best score
wins with ties resolved in the order CF, BS, IS. -/
theorem keyword_argmax_eq (x y z : ℕ) :
    (([(Bucket.CF, x), (Bucket.BS, y), (Bucket.IS, z)].foldl
        (fun best c => if best.2 < c.2 then c else best) (Bucket.Other, 0)).1 =
      if x = 0 ∧ y = 0 ∧ z = 0 then Bucket.Other
      else if y ≤ x ∧ z ≤ x then Bucket.CF
      else if z ≤ y then Bucket.BS
      else Bucket.IS) := by
  simp only [List.foldl]
  split_ifs <;> simp_all <;> omega

/-- Claim C2: the keyword-scoring strategy lower-cases the label, scores each
category by its matching keyword fragments, lets the highest score win with
ties broken in the fixed priority Cash Flow > Balance Sheet > Income
Statement, and keeps zero-match items under the `Other` bucket (retained, not
discarded). -/
theorem keyword_classify_spec (kwCF kwBS kwIS : List String) (label : String) :
    (keywordScore kwCF (lowerStr label) = 0 → keywordScore kwBS (lowerStr label) = 0 →
        keywordScore kwIS (lowerStr label) = 0 →
        keywordClassify kwCF kwBS kwIS label = Bucket.Other) ∧
      (0 < keywordScore kwCF (lowerStr label) →
        keywordScore kwBS (lowerStr label) ≤ keywordScore kwCF (lowerStr label) →
        keywordScore kwIS (lowerStr label) ≤ keywordScore kwCF (lowerStr label) →
        keywordClassify kwCF kwBS kwIS label = Bucket.CF) ∧
      (keywordScore kwCF (lowerStr label) < keywordScore kwBS (lowerStr label) →
        keywordScore kwIS (lowerStr label) ≤ keywordScore kwBS (lowerStr label) →
        keywordClassify kwCF kwBS kwIS label = Bucket.BS) ∧
      (keywordScore kwCF (lowerStr label) < keywordScore kwIS (lowerStr label) →
        keywordScore kwBS (lowerStr label) < keywordScore kwIS (lowerStr label) →
        keywordClassify kwCF kwBS kwIS label = Bucket.IS) := by
  have hcl : keywordClassify kwCF kwBS kwIS label =
      if keywordScore kwCF (lowerStr label) = 0 ∧ keywordScore kwBS (lowerStr label) = 0 ∧
          keywordScore kwIS (lowerStr label) = 0 then Bucket.Other
      else if keywordScore kwBS (lowerStr label) ≤ keywordScore kwCF (lowerStr label) ∧
          keywordScore kwIS (lowerStr label) ≤ keywordScore kwCF (lowerStr label) then
        Bucket.CF
      else if keywordScore kwIS (lowerStr label) ≤ keywordScore kwBS (lowerStr label) then
        Bucket.BS
      else Bucket.IS := by
    unfold keywordClassify
    exact keyword_argmax_eq _ _ _
  rw [hcl]
  refine ⟨?_, ?_, ?_, ?_⟩
  · intro h1 h2 h3
    rw [if_pos ⟨h1, h2, h3⟩]
  · intro h1 h2 h3
    rw [if_neg (by omega), if_pos ⟨h2, h3⟩]
  · intro h1 h2
    rw [if_neg (by omega), if_neg (by omega), if_pos h2]
  · intro h1 h2
    rw [if_neg (by omega), if_neg (by omega), if_neg (by omega)]

/-- Witness for C2: with fragment sets cash/asset/income, a pure cash label
classifies CF, an asset label BS, an income label IS, and an unmatched label
lands in `Other` (retained). -/
theorem keyword_classify_spec_witness :
    keywordClassify ["cash"] ["asset"] ["income"] "Zzz" = Bucket.Other ∧
      keywordClassify ["cash"] ["asset"] ["income"] "Net Cash Used" = Bucket.CF ∧
      keywordClassify ["cash"] ["asset"] ["income"] "Total Assets" = Bucket.BS ∧
      keywordClassify ["cash"] ["asset"] ["income"] "Net Income Loss" = Bucket.IS :=
  ⟨(keyword_classify_spec ["cash"] ["asset"] ["income"] "Zzz").1
      (by decide) (by decide) (by decide),
    (keyword_classify_spec ["cash"] ["asset"] ["income"] "Net Cash Used").2.1
      (by decide) (by decide) (by decide),
    (keyword_classify_spec ["cash"] ["asset"] ["income"] "Total Assets").2.2.1
      (by decide) (by decide),
    (keyword_classify_spec ["cash"] ["asset"] ["income"] "Net Income Loss").2.2.2
      (by decide) (by decide)⟩

/-! ## Claim theorems: miner dedup (C8) -/

theorem dedupByFp_append (seen : List String) (l1 l2 : List (String × Df)) :
    dedupByFp seen (l1 ++ l2) =
      dedupByFp seen l1 ++
        dedupByFp (seen ++ (dedupByFp seen l1).map (fun p => fingerprint p.2)) l2 := by
  induction l1 generalizing seen with
  | nil => simp [dedupByFp]
  | cons p rest ih =>
    rw [List.cons_append]
    by_cases h : fingerprint p.2 ∈ seen
    · have e1 : dedupByFp seen (p :: (rest ++ l2)) = dedupByFp seen (rest ++ l2) := by
        simp [dedupByFp, h]
      have e2 : dedupByFp seen (p :: rest) = dedupByFp seen rest := by
        simp [dedupByFp, h]
      rw [e1, e2, ih]
    · have e1 : dedupByFp seen (p :: (rest ++ l2)) =
          p :: dedupByFp (seen ++ [fingerprint p.2]) (rest ++ l2) := by
        simp [dedupByFp, h]
      have e2 : dedupByFp seen (p :: rest) =
          p :: dedupByFp (seen ++ [fingerprint p.2]) rest := by
        simp [dedupByFp, h]
      rw [e1, e2, ih, List.cons_append]
      congr 2
      simp [List.append_assoc]

theorem minerTableStep_foldl (date : String) (cands : List Df)
    (res : List (String × Df)) (seen : List String) :
    cands.foldl (minerTableStep date) (res, seen) =
      (res ++ (dedupByFp seen (cands.map (fun df => (date, df)))).map
          (fun p => (p.1, cleanDf p.2)),
        seen ++ (dedupByFp seen (cands.map (fun df => (date, df)))).map
          (fun p => fingerprint p.2)) := by
  induction cands generalizing res seen with
  | nil => simp [dedupByFp]
  | cons df rest ih =>
    rw [List.foldl_cons, List.map_cons]
    by_cases h : fingerprint df ∈ seen
    · have e1 : minerTableStep date (res, seen) df = (res, seen) := by
        simp [minerTableStep, h]
      have e2 : dedupByFp seen ((date, df) :: rest.map (fun df => (date, df))) =
          dedupByFp seen (rest.map (fun df => (date, df))) := by
        simp [dedupByFp, h]
      rw [e1, e2, ih]
    · have e1 : minerTableStep date (res, seen) df =
          (res ++ [(date, cleanDf df)], seen ++ [fingerprint df]) := by
        simp [minerTableStep, h]
      have e2 : dedupByFp seen ((date, df) :: rest.map (fun df => (date, df))) =
          (date, df) ::
            dedupByFp (seen ++ [fingerprint df]) (rest.map (fun df => (date, df))) := by
        simp [dedupByFp, h]
      rw [e1, e2, ih]
      simp [List.append_assoc]

theorem minerDocStep_foldl (fetchHtml : Filing → Option String)
    (locate : String → List Df) (filings : List Filing)
    (res : List (String × Df)) (seen : List String) :
    filings.foldl (minerDocStep fetchHtml locate) (res, seen) =
      (res ++ (dedupByFp seen (minerStream fetchHtml locate filings)).map
          (fun p => (p.1, cleanDf p.2)),
        seen ++ (dedupByFp seen (minerStream fetchHtml locate filings)).map
          (fun p => fingerprint p.2)) := by
  induction filings generalizing res seen with
  | nil => simp [minerStream, dedupByFp]
  | cons filing rest ih =>
    rw [List.foldl_cons]
    cases hf : fetchHtml filing with
    | none =>
      have e1 : minerDocStep fetchHtml locate (res, seen) filing = (res, seen) := by
        simp [minerDocStep, hf]
      have hstream : minerStream fetchHtml locate (filing :: rest) =
          minerStream fetchHtml locate rest := by
        simp [minerStream, hf]
      rw [e1, ih, hstream]
    | some html =>
      by_cases hh : html = ""
      · have e1 : minerDocStep fetchHtml locate (res, seen) filing = (res, seen) := by
          simp [minerDocStep, hf, hh]
        have hstream : minerStream fetchHtml locate (filing :: rest) =
            minerStream fetchHtml locate rest := by
          simp [minerStream, hf, hh]
        rw [e1, ih, hstream]
      · have e1 : minerDocStep fetchHtml locate (res, seen) filing =
            (extract_tables_from_html (locate html)).foldl
              (minerTableStep filing.date) (res, seen) := by
          simp [minerDocStep, hf, hh]
        have hstream : minerStream fetchHtml locate (filing :: rest) =
            (extract_tables_from_html (locate html)).map (fun df => (filing.date, df)) ++
              minerStream fetchHtml locate rest := by
          simp [minerStream, hf, hh]
        rw [e1, minerTableStep_foldl, ih, hstream, dedupByFp_append]
        simp [List.append_assoc]

theorem dedupByFp_fp_not_mem (l : List (String × Df)) (seen : List String)
    (p : String × Df) (hp : p ∈ dedupByFp seen l) : fingerprint p.2 ∉ seen := by
  induction l generalizing seen with
  | nil => simp [dedupByFp] at hp
  | cons q rest ih =>
    by_cases h : fingerprint q.2 ∈ seen
    · rw [show dedupByFp seen (q :: rest) = dedupByFp seen rest from by
        simp [dedupByFp, h]] at hp
      exact ih seen hp
    · rw [show dedupByFp seen (q :: rest) =
          q :: dedupByFp (seen ++ [fingerprint q.2]) rest from by
        simp [dedupByFp, h]] at hp
      rcases List.mem_cons.mp hp with heq | hmem
      · subst heq
        exact h
      · intro hmem2
        exact ih _ hmem (List.mem_append_left _ hmem2)

theorem dedupByFp_fp_nodup (l : List (String × Df)) (seen : List String) :
    ((dedupByFp seen l).map (fun p => fingerprint p.2)).Nodup := by
  induction l generalizing seen with
  | nil => simp [dedupByFp]
  | cons q rest ih =>
    by_cases h : fingerprint q.2 ∈ seen
    · rw [show dedupByFp seen (q :: rest) = dedupByFp seen rest from by
        simp [dedupByFp, h]]
      exact ih seen
    · rw [show dedupByFp seen (q :: rest) =
          q :: dedupByFp (seen ++ [fingerprint q.2]) rest from by
        simp [dedupByFp, h]]
      rw [List.map_cons]
      refine List.nodup_cons.mpr ⟨?_, ih _⟩
      intro hmem
      rcases List.mem_map.mp hmem with ⟨p, hp, hfp⟩
      have hnot := dedupByFp_fp_not_mem rest _ p hp
      refine hnot ?_
      rw [hfp]
      exact List.mem_append_right _ (by simp)

/-- Claim C8: across a whole mining run the miner returns each table content
only once, keeping the first occurrence: the run's output equals the candidate
stream filtered to the first occurrence of each content fingerprint (then
cleaned), and the fingerprints of that filtered stream are pairwise distinct —
so byte-identical tables appearing in two documents are returned exactly once,
from the document scanned first. -/
theorem miner_returns_first_occurrence_only :
    (∀ (fetchHtml : Filing → Option String) (locate : String → List Df)
        (filings : List Filing) (maxFilings : ℕ),
      fetch_segment_data fetchHtml locate filings maxFilings =
        (dedupByFp [] (candidateStream fetchHtml locate filings maxFilings)).map
          (fun p => (p.1, cleanDf p.2))) ∧
      (∀ l : List (String × Df),
        ((dedupByFp [] l).map (fun p => fingerprint p.2)).Nodup) := by
  constructor
  · intro fetchHtml locate filings maxFilings
    unfold fetch_segment_data candidateStream
    rw [minerDocStep_foldl]
    simp
  · intro l
    exact dedupByFp_fp_nodup l []
